import Mathlib

/-!
Shallow embedding of the item classification engine of
`src/dmarket_scraperRust/src/item_filter.py`.

Conventions of the embedding:
* Python strings are `List Char` (a list of Unicode code points).
* Python floats are modelled as exact rationals `ℚ`; the claims under study
  are about list selection, defaulting and threshold comparisons at values
  where IEEE and exact arithmetic agree.
* A Python dict with possibly-missing keys is a structure with `Option`
  fields; `dict.get(k, d)` becomes `Option.getD`.
* A raised-and-caught exception that aborts a computation is modelled by an
  `Option`-valued step; fields that the Python code never got to assign stay
  `none`.
-/

/- Mathlib seals the core rational operations; reopen them so that concrete
runs of the embedded program reduce under `decide`. -/
unseal Rat.add Rat.mul Rat.sub Rat.inv

/-- Python `str.isspace` character class, the set used by `str.split()` and
`str.strip()` (ASCII whitespace, the C1 controls 0x1c–0x1f and 0x85, NBSP,
and the Unicode space separators). -/
def isPySpace (c : Char) : Bool :=
  let n := c.toNat
  (decide (9 ≤ n) && decide (n ≤ 13)) || decide (n = 32) ||
  (decide (28 ≤ n) && decide (n ≤ 31)) || decide (n = 0x85) || decide (n = 0xA0) ||
  decide (n = 0x1680) || (decide (0x2000 ≤ n) && decide (n ≤ 0x200A)) ||
  decide (n = 0x2028) || decide (n = 0x2029) || decide (n = 0x202F) ||
  decide (n = 0x205F) || decide (n = 0x3000)

/-- Python `str.strip()`: remove leading and trailing whitespace. -/
def pyStrip (s : List Char) : List Char :=
  ((s.dropWhile isPySpace).reverse.dropWhile isPySpace).reverse

/-- Accumulator-passing worker for `splitWs`; `acc` holds the reversed
current word. -/
def splitWsAux : List Char → List Char → List (List Char)
  | [], acc => if acc = [] then [] else [acc.reverse]
  | c :: rest, acc =>
    if isPySpace c then
      if acc = [] then splitWsAux rest []
      else acc.reverse :: splitWsAux rest []
    else splitWsAux rest (c :: acc)

/-- Python `str.split()` with no argument: the maximal non-whitespace runs,
with empty runs dropped. -/
def splitWs (s : List Char) : List (List Char) :=
  splitWsAux s []

/-- Python `" ".join(words)`. -/
def joinWords : List (List Char) → List Char
  | [] => []
  | [w] => w
  | w :: ws => w ++ ' ' :: joinWords ws

/-- The mis-encoding artifact character `â` (U+00E2) tested for by
`clean_name`. -/
def aHat : Char := Char.ofNat 0xE2

/-- The trademark sign `™` (U+2122) removed by `clean_name`. -/
def tmChar : Char := Char.ofNat 0x2122

/-- Per-character compatibility normalization table.  Models
`unicodedata.normalize("NFKC", ·)` restricted to the code points occurring
in this development: of those only U+2122 has a compatibility decomposition
(to `TM`); every other character used here is NFKC-stable. -/
def nfkcChar (c : Char) : List Char :=
  if c = tmChar then ['T', 'M'] else [c]

/-- Models `unicodedata.normalize("NFKC", s)` on the restricted alphabet of
`nfkcChar`. -/
def nfkc (s : List Char) : List Char :=
  s.flatMap nfkcChar

/-- Python `s.encode("latin1")`: succeeds iff every code point is ≤ 0xFF,
yielding the code points as bytes. -/
def latin1Encode : List Char → Option (List Nat)
  | [] => some []
  | c :: rest =>
    if c.toNat ≤ 0xFF then (latin1Encode rest).map (c.toNat :: ·) else none

/-- Continuation-byte test for strict UTF-8 decoding. -/
def utf8Cont (b : Nat) : Bool :=
  decide (0x80 ≤ b) && decide (b ≤ 0xBF)

/-- Python `bytes.decode("utf-8")`: strict UTF-8 decoding, rejecting
truncated, overlong and surrogate/out-of-range sequences. -/
def utf8Decode : List Nat → Option (List Char)
  | [] => some []
  | b :: rest =>
    if b ≤ 0x7F then
      (utf8Decode rest).map (Char.ofNat b :: ·)
    else if decide (0xC2 ≤ b) && decide (b ≤ 0xDF) then
      match rest with
      | c1 :: rest1 =>
        if utf8Cont c1 then
          (utf8Decode rest1).map (Char.ofNat ((b - 0xC0) * 64 + (c1 - 0x80)) :: ·)
        else none
      | [] => none
    else if decide (0xE0 ≤ b) && decide (b ≤ 0xEF) then
      match rest with
      | c1 :: c2 :: rest2 =>
        if utf8Cont c1 && utf8Cont c2 &&
            (decide (b ≠ 0xE0) || decide (0xA0 ≤ c1)) &&
            (decide (b ≠ 0xED) || decide (c1 ≤ 0x9F)) then
          (utf8Decode rest2).map
            (Char.ofNat ((b - 0xE0) * 4096 + (c1 - 0x80) * 64 + (c2 - 0x80)) :: ·)
        else none
      | _ => none
    else if decide (0xF0 ≤ b) && decide (b ≤ 0xF4) then
      match rest with
      | c1 :: c2 :: c3 :: rest3 =>
        if utf8Cont c1 && utf8Cont c2 && utf8Cont c3 &&
            (decide (b ≠ 0xF0) || decide (0x90 ≤ c1)) &&
            (decide (b ≠ 0xF4) || decide (c1 ≤ 0x8F)) then
          (utf8Decode rest3).map
            (Char.ofNat
              ((b - 0xF0) * 262144 + (c1 - 0x80) * 4096 + (c2 - 0x80) * 64 +
                (c3 - 0x80)) :: ·)
        else none
      | _ => none
    else none

/-- Embedding of `clean_name` (item_filter.py, lines 34–63): if the
artifact `â` occurs, attempt a Latin-1 → UTF-8 re-decode of the whole
string keeping the input on failure, then drop `™`, NFKC-normalize and
collapse whitespace.  The enclosing Python `try` is unreachable (every
fallible step has its own handler), so it has no counterpart here. -/
def clean_name (s : List Char) : List Char :=
  if s = [] then []
  else
    let fixed :=
      if s.contains aHat then
        match latin1Encode s with
        | none => s
        | some bs =>
          match utf8Decode bs with
          | none => s
          | some t => t
      else s
    let noTm := fixed.filter (fun c => c ≠ tmChar)
    joinWords (splitWs (nfkc noTm))

/-- The owned-marker suffix `" MINE"` as a character list. -/
def mineSuffix : List Char := [' ', 'M', 'I', 'N', 'E']

/-- Embedding of `base_name` (item_filter.py, lines 66–74): strip a
trailing `" MINE"` (then Python `strip()`), otherwise return the input. -/
def base_name (s : List Char) : List Char :=
  if mineSuffix.isSuffixOf s then pyStrip (s.take (s.length - 5))
  else s

example : clean_name "StatTrak M249".toList = "StatTrak M249".toList := by decide
example : clean_name "  a   b ".toList = "a b".toList := by decide
example : base_name "Sticker X MINE".toList = "Sticker X".toList := by decide
example : base_name "Sticker X".toList = "Sticker X".toList := by decide
example :
    clean_name [Char.ofNat 0x2028, Char.ofNat 0xE2, Char.ofNat 0x82, Char.ofNat 0xAC] =
      [Char.ofNat 0xE2, Char.ofNat 0x82, Char.ofNat 0xAC] := by decide
example :
    clean_name [Char.ofNat 0xE2, Char.ofNat 0x82, Char.ofNat 0xAC] =
      [Char.ofNat 0x20AC] := by decide

/-- Digit test for decimal parsing. -/
def isDigitC (c : Char) : Bool :=
  decide ('0' ≤ c) && decide (c ≤ '9')

/-- Numeric value of a digit string (most significant first). -/
def digitsToNat (ds : List Char) : Nat :=
  ds.foldl (fun n c => 10 * n + (c.toNat - 48)) 0

/-- Models Python `float(s)` on decimal literals: optional sign, then
digits with at most one point and at least one digit.  (The exotic float
syntaxes — exponents, `inf`, `nan`, underscores — are outside the domain
exercised here and are not modelled; leading/trailing whitespace is
stripped by the callers before this runs.) -/
def pyFloat (s : List Char) : Option ℚ :=
  let (sign, body) :=
    match s with
    | '-' :: rest => ((-1 : ℚ), rest)
    | '+' :: rest => ((1 : ℚ), rest)
    | _ => ((1 : ℚ), s)
  let intPart := body.takeWhile isDigitC
  let rest := body.dropWhile isDigitC
  match rest with
  | [] =>
    if intPart = [] then none
    else some (sign * (digitsToNat intPart : ℚ))
  | '.' :: frac =>
    if frac.all isDigitC ∧ (intPart ≠ [] ∨ frac ≠ []) then
      some (sign * ((digitsToNat intPart : ℚ) +
        (digitsToNat frac : ℚ) / ((10 : ℚ) ^ frac.length)))
    else none
  | _ => none

/-- The price-string pipeline `float(s.replace("$", "").strip())` used for
sale, offer and target prices. -/
def parseMoney (s : List Char) : Option ℚ :=
  pyFloat (pyStrip (s.filter (fun c => c ≠ '$')))

example : parseMoney "$1.50".toList = some (3 / 2) := by decide
example : parseMoney " $0 ".toList = some 0 := by decide
example : parseMoney "-2.5".toList = some (-(5 / 2)) := by decide
example : parseMoney "abc".toList = none := by decide
example : parseMoney "".toList = none := by decide
example : parseMoney ".5".toList = some (1 / 2) := by decide

/-- Calendar datetime as produced by `datetime.strptime`; missing
components default to 0 apart from the strptime defaults year 1900,
month 1, day 1 (only the components that a format fills are ever compared
in this development, and comparison of real datetimes is lexicographic on
these six fields). -/
structure PyDateTime where
  year : Nat
  month : Nat
  day : Nat
  hour : Nat
  minute : Nat
  second : Nat
deriving DecidableEq, Repr

/-- Lexicographic order on datetimes, matching comparison of Python
`datetime` values. -/
def PyDateTime.le (a b : PyDateTime) : Bool :=
  decide ((a.year, a.month, a.day, a.hour, a.minute, a.second) ≤
    (b.year, b.month, b.day, b.hour, b.minute, b.second))

/-- Gregorian leap-year rule used by `datetime`. -/
def isLeapYear (y : Nat) : Bool :=
  (decide (y % 4 = 0) && decide (y % 100 ≠ 0)) || decide (y % 400 = 0)

/-- Days in a month, as validated by the `datetime` constructor. -/
def daysInMonth (y m : Nat) : Nat :=
  if m = 2 then (if isLeapYear y then 29 else 28)
  else if m = 4 ∨ m = 6 ∨ m = 9 ∨ m = 11 then 30
  else 31

/-- Validation performed by the `datetime` constructor after a successful
`strptime` pattern match. -/
def mkDateTime (y m d h mi s : Nat) : Option PyDateTime :=
  if 1 ≤ y ∧ y ≤ 9999 ∧ 1 ≤ m ∧ m ≤ 12 ∧ 1 ≤ d ∧ d ≤ daysInMonth y m ∧
      h ≤ 23 ∧ mi ≤ 59 ∧ s ≤ 59 then
    some ⟨y, m, d, h, mi, s⟩
  else none

/-- Read exactly four digits (strptime `%Y`). -/
def read4 : List Char → Option (Nat × List Char)
  | a :: b :: c :: d :: rest =>
    if isDigitC a && isDigitC b && isDigitC c && isDigitC d then
      some (digitsToNat [a, b, c, d], rest)
    else none
  | _ => none

/-- Read one or two digits greedily (strptime `%m`, `%d`, `%H`, `%M`,
`%S`, `%I`); range checks happen afterwards, as in the strptime regexes
and the `datetime` constructor. -/
def read2 : List Char → Option (Nat × List Char)
  | [] => none
  | c1 :: rest =>
    if isDigitC c1 then
      match rest with
      | c2 :: rest2 =>
        if isDigitC c2 then some (digitsToNat [c1, c2], rest2)
        else some (digitsToNat [c1], rest)
      | [] => some (digitsToNat [c1], [])
    else none

/-- Expect one literal character. -/
def expectC (c : Char) : List Char → Option (List Char)
  | x :: rest => if x = c then some rest else none
  | [] => none

/-- Expect a literal letter case-insensitively (strptime compiles its
pattern with IGNORECASE). -/
def expectCI (c : Char) : List Char → Option (List Char)
  | x :: rest => if x.toLower = c.toLower then some rest else none
  | [] => none

/-- Expect one or more whitespace characters (a whitespace in a strptime
format matches a whitespace run). -/
def expectWs : List Char → Option (List Char)
  | x :: rest => if isPySpace x then some (rest.dropWhile isPySpace) else none
  | [] => none

/-- Month abbreviations recognized by `%b` in the C locale, matched
case-insensitively. -/
def monthAbbrevs : List (List Char) :=
  ["Jan".toList, "Feb".toList, "Mar".toList, "Apr".toList, "May".toList,
   "Jun".toList, "Jul".toList, "Aug".toList, "Sep".toList, "Oct".toList,
   "Nov".toList, "Dec".toList]

/-- Read a `%b` month abbreviation, returning its 1-based number. -/
def readMonthAbbrev (s : List Char) : Option (Nat × List Char) :=
  (monthAbbrevs.enumFrom 1).findSome? fun mi =>
    if (s.take 3).map Char.toLower = mi.2.map Char.toLower ∧ (s.take 3).length = 3 then
      some (mi.1, s.drop 3)
    else none

/-- Read a `%p` AM/PM marker case-insensitively, returning `true` for PM. -/
def readAmPm : List Char → Option (Bool × List Char)
  | a :: b :: rest =>
    if a.toLower = 'a' ∧ b.toLower = 'm' then some (false, rest)
    else if a.toLower = 'p' ∧ b.toLower = 'm' then some (true, rest)
    else none
  | _ => none

/-- Convert a `%I`/`%p` pair to a 24-hour value, as `_strptime` does. -/
def hour12to24 (h : Nat) (pm : Bool) : Nat :=
  if pm then (if h = 12 then 12 else h + 12)
  else (if h = 12 then 0 else h)

/-- Format `"%Y-%m-%d %H:%M:%S"`. -/
def parseFmt1 (s : List Char) : Option PyDateTime := do
  let (y, s) ← read4 s
  let s ← expectC '-' s
  let (m, s) ← read2 s
  let s ← expectC '-' s
  let (d, s) ← read2 s
  let s ← expectWs s
  let (h, s) ← read2 s
  let s ← expectC ':' s
  let (mi, s) ← read2 s
  let s ← expectC ':' s
  let (sec, s) ← read2 s
  if s = [] then mkDateTime y m d h mi sec else none

/-- Format `"%Y-%m-%d"`. -/
def parseFmt2 (s : List Char) : Option PyDateTime := do
  let (y, s) ← read4 s
  let s ← expectC '-' s
  let (m, s) ← read2 s
  let s ← expectC '-' s
  let (d, s) ← read2 s
  if s = [] then mkDateTime y m d 0 0 0 else none

/-- Format `"%b %d, %Y, %I:%M %p"`, e.g. `"Feb 03, 2025, 06:46 PM"`. -/
def parseFmt3 (s : List Char) : Option PyDateTime := do
  let (m, s) ← readMonthAbbrev s
  let s ← expectWs s
  let (d, s) ← read2 s
  let s ← expectC ',' s
  let s ← expectWs s
  let (y, s) ← read4 s
  let s ← expectC ',' s
  let s ← expectWs s
  let (h12, s) ← read2 s
  let s ← expectC ':' s
  let (mi, s) ← read2 s
  let s ← expectWs s
  let (pm, s) ← readAmPm s
  if s = [] ∧ 1 ≤ h12 ∧ h12 ≤ 12 then mkDateTime y m d (hour12to24 h12 pm) mi 0
  else none

/-- Format `"%b %d, %Y at %I:%M %p"`, e.g. `"Mar 09, 2025 at 04:02 PM"`. -/
def parseFmt4 (s : List Char) : Option PyDateTime := do
  let (m, s) ← readMonthAbbrev s
  let s ← expectWs s
  let (d, s) ← read2 s
  let s ← expectC ',' s
  let s ← expectWs s
  let (y, s) ← read4 s
  let s ← expectWs s
  let s ← expectCI 'a' s
  let s ← expectCI 't' s
  let s ← expectWs s
  let (h12, s) ← read2 s
  let s ← expectC ':' s
  let (mi, s) ← read2 s
  let s ← expectWs s
  let (pm, s) ← readAmPm s
  if s = [] ∧ 1 ≤ h12 ∧ h12 ≤ 12 then mkDateTime y m d (hour12to24 h12 pm) mi 0
  else none

/-- Embedding of `parse_date` (item_filter.py, lines 77–97): try the four
formats in order, first success wins, `none` otherwise. -/
def parse_date (s : List Char) : Option PyDateTime :=
  match parseFmt1 s with
  | some d => some d
  | none =>
    match parseFmt2 s with
    | some d => some d
    | none =>
      match parseFmt3 s with
      | some d => some d
      | none => parseFmt4 s

example : parse_date "2025-02-03 14:30:00".toList = some ⟨2025, 2, 3, 14, 30, 0⟩ := by
  decide
example : parse_date "2025-02-03".toList = some ⟨2025, 2, 3, 0, 0, 0⟩ := by decide
example : parse_date "Feb 03, 2025, 06:46 PM".toList = some ⟨2025, 2, 3, 18, 46, 0⟩ := by
  decide
example : parse_date "Mar 09, 2025 at 04:02 PM".toList = some ⟨2025, 3, 9, 16, 2, 0⟩ := by
  decide
example : parse_date "2025-02-30".toList = none := by decide
example : parse_date "not a date".toList = none := by decide

/-- RawSaleEvent: one entry of `sales_history` as scraped; every field may
be missing. -/
structure RawSale where
  price : Option (List Char) := none
  date_time : Option (List Char) := none
  date : Option (List Char) := none
  time : Option (List Char) := none
  operation : Option (List Char) := none
deriving DecidableEq, Repr

/-- RawOrderEntry: one row of the offer or target table; only the price is
consumed by the core logic. -/
structure RawOrder where
  price : Option (List Char) := none
deriving DecidableEq, Repr

/-- RawItem as consumed by `transform_item`. -/
structure RawItem where
  name : List Char := []
  wear : List Char := []
  sales_history : List RawSale := []
  offer_prices : List RawOrder := []
  target_prices : List RawOrder := []
deriving DecidableEq, Repr

/-- Entries of `recent_sales_prices`. -/
structure SaleInfo where
  price : ℚ
  date_time : List Char
  operation : Option (List Char)
deriving DecidableEq, Repr

/-- AnalyticRecord: the transformed dict.  A key the Python code never
assigned is `none`; the evaluators read keys with `dict.get`. -/
structure Item where
  name : List Char := []
  wear : List Char := []
  sales : Option Nat := none
  recent_sales_prices : Option (List SaleInfo) := none
  offer_prices_list : Option (List ℚ) := none
  offer_prices_quantity : Option Nat := none
  target_price_list : Option (List ℚ) := none
  target_price_list_quantity : Option Nat := none
  profit_margin_pair1 : Option ℚ := none
  profit_margin_pair2 : Option ℚ := none
  average_recent_sale_price : Option ℚ := none
  price_variance : Option ℚ := none
deriving DecidableEq, Repr

/-- Python truthiness of an optional string: `None` and `""` are falsy. -/
def truthyS : Option (List Char) → Option (List Char)
  | some s => if s = [] then none else some s
  | none => none

/-- Resolution of the date string for one sale (item_filter.py, lines
136–143): use `date_time` if truthy, else compose `date` and `time` if both
truthy, else fall back to the raw `date` field. -/
def resolveDateStr (sh : RawSale) : Option (List Char) :=
  match truthyS sh.date_time with
  | some dt => some dt
  | none =>
    match truthyS sh.date, truthyS sh.time with
    | some d, some t => some (d ++ ' ' :: t)
    | _, _ => sh.date

/-- Lifting of `parse_date` to the optional date string; `strptime` raises
on `None` and that failure is swallowed by the per-format handler, so a
missing string parses to nothing. -/
def parse_dateO (s : Option (List Char)) : Option PyDateTime :=
  s.bind parse_date

/-- Per-entry body of the sale-history loop of `transform_item` (lines
124–156): the sale survives iff its price is truthy and parses, the
resolved date string parses, and the date is at least `thirty_days_ago`;
any failure skips just this entry (`continue`).  No failure here can abort
the surrounding computation. -/
def saleKeep (cutoff : PyDateTime) (sh : RawSale) : Option SaleInfo :=
  match (truthyS sh.price).bind parseMoney with
  | none => none
  | some price =>
    let ds := resolveDateStr sh
    match parse_dateO ds with
    | none => none
    | some d =>
      if cutoff.le d then some ⟨price, ds.getD [], sh.operation⟩ else none

/-- Sale-history loop of `transform_item` (lines 122–158): the loop
increments `monthly_sales` and appends to `recent_sales_data` exactly for
the surviving entries, in input order, so it returns the survivor count and
the survivor list. -/
def processSales (cutoff : PyDateTime) (l : List RawSale) : Nat × List SaleInfo :=
  let kept := l.filterMap (saleKeep cutoff)
  (kept.length, kept)

/-- Offer/target comprehension (lines 164–168 and 176–180): entries with a
falsy price are filtered out; a present price that fails `float` raises,
which the comprehension does not catch — the whole step aborts (`none`). -/
def parseOrders : List RawOrder → Option (List ℚ)
  | [] => some []
  | o :: rest =>
    match truthyS o.price with
    | none => parseOrders rest
    | some s =>
      match parseMoney s with
      | none => none
      | some q => (parseOrders rest).map (q :: ·)

/-- Value of a single order entry when no entry of the batch fails:
`parseOrders` on the success path is `filterMap orderVal`. -/
def orderVal (o : RawOrder) : Option ℚ :=
  (truthyS o.price).bind parseMoney

/-- Ascending Python `sorted` on rationals. -/
def sortAsc (l : List ℚ) : List ℚ :=
  l.insertionSort (· ≤ ·)

/-- Python `sorted(·, reverse=True)` on rationals. -/
def sortDesc (l : List ℚ) : List ℚ :=
  l.insertionSort (· ≥ ·)

/-- Sample mean used via `statistics.mean`. -/
def listMean (l : List ℚ) : ℚ :=
  l.sum / l.length

/-- Sample variance (denominator `n - 1`) used via `statistics.variance`;
only ever called with at least two samples. -/
def listVariance (l : List ℚ) : ℚ :=
  (l.map (fun x => (x - listMean l) ^ 2)).sum / ((l.length : ℚ) - 1)

/-- Embedding of `transform_item` (item_filter.py, lines 100–216).  The
`try` block is modelled statement by statement: the sale loop cannot raise;
the offer comprehension, the target comprehension, and each of the two
margin divisions can, and a raise jumps to the outer handler, leaving every
later key unassigned (`none`) while keys already assigned survive.
`cutoff` stands for the computed `datetime.now() - timedelta(days=30)`. -/
def transform_item (cutoff : PyDateTime) (raw : RawItem) : Item :=
  let nm := clean_name raw.name
  let (monthly, recent) := processSales cutoff raw.sales_history
  let base : Item :=
    { name := nm, wear := raw.wear, sales := some monthly,
      recent_sales_prices := some recent }
  match parseOrders raw.offer_prices with
  | none => base
  | some fullOffers =>
    let lowestOffers := (sortAsc fullOffers).take 3
    let b2 : Item :=
      { base with offer_prices_list := some lowestOffers,
                  offer_prices_quantity := some lowestOffers.length }
    match parseOrders raw.target_prices with
    | none => b2
    | some fullTargets =>
      let highestTargets := (sortDesc fullTargets).take 3
      let b3 : Item :=
        { b2 with target_price_list := some highestTargets,
                  target_price_list_quantity := some highestTargets.length }
      let offer1 := lowestOffers.headD (1 / 100)
      let target1 := highestTargets.headD (1 / 100)
      if target1 = 0 then b3
      else
        let b4 : Item := { b3 with profit_margin_pair1 := some (offer1 / target1) }
        let offer2 := lowestOffers.getD 1 (1 / 100)
        let target2 := highestTargets.getD 1 (1 / 100)
        if target2 = 0 then b4
        else
          let b5 : Item := { b4 with profit_margin_pair2 := some (offer2 / target2) }
          let recentPrices := recent.map SaleInfo.price
          if recentPrices = [] then
            { b5 with average_recent_sale_price := some 0, price_variance := some 0 }
          else
            { b5 with
              average_recent_sale_price := some (listMean recentPrices),
              price_variance :=
                some (if 1 < recentPrices.length then listVariance recentPrices else 0) }

/-- Python truthiness of an optional list value read with `dict.get`. -/
def truthyQList : Option (List ℚ) → Bool
  | none => false
  | some l => decide (l ≠ [])

/-- Embedding of `is_price_consistent` (item_filter.py, lines 219–233):
false on an empty sequence or a zero minimum, else compare `max/min`
against 4.2 (mean < 5) or 1.20. -/
def is_price_consistent (prices : List ℚ) : Bool :=
  match prices with
  | [] => false
  | p :: ps =>
    let mn := ps.foldl min p
    let mx := ps.foldl max p
    if mn = 0 then false
    else
      let avg := listMean (p :: ps)
      let threshold : ℚ := if avg < 5 then 21 / 5 else 6 / 5
      decide (mx / mn ≤ threshold)

/-- Embedding of `is_good_candidate` (item_filter.py, lines 236–264):
reject below 7 sales (`sales` defaulting to 0), then reject when either
price list is falsy, else accept. -/
def is_good_candidate (item : Item) : Bool :=
  let sales := item.sales.getD 0
  if sales < 7 then false
  else if !truthyQList item.offer_prices_list ||
      !truthyQList item.target_price_list then false
  else true

/-- Embedding of `passes_profit_margin` (item_filter.py, lines 267–289):
reject below 7 sales, choose factor 1.15 (`sales ≥ 15`) or 1.30, accept iff
a present margin pair reaches the factor. -/
def passes_profit_margin (item : Item) : Bool :=
  let sales := item.sales.getD 0
  if sales < 7 then false
  else
    let factor : ℚ := if 15 ≤ sales then 23 / 20 else 13 / 10
    let ok1 := match item.profit_margin_pair1 with
      | some v => decide (factor ≤ v)
      | none => false
    let ok2 := match item.profit_margin_pair2 with
      | some v => decide (factor ≤ v)
      | none => false
    ok1 || ok2

/-- Output projection appended to `good_items`/`bad_items`. -/
structure Proj where
  name : List Char
  wear : List Char
deriving DecidableEq, Repr

/-- Projection `{"name": ..., "wear": ...}` of an item. -/
def projM (i : Item) : Proj :=
  ⟨i.name, i.wear⟩

/-- Test `item.get("name", "").endswith(" MINE")` used by `main`. -/
def isMine (i : Item) : Bool :=
  mineSuffix.isSuffixOf i.name

/-- Candidate predicate of the resolver:
`is_good_candidate(item) or passes_profit_margin(item)`. -/
def isCandidate (i : Item) : Bool :=
  is_good_candidate i || passes_profit_margin i

/-- Grouping key of `main` (lines 322–327):
`base_name(clean_name(item.get("name", "")))`. -/
def groupKey (i : Item) : List Char :=
  base_name (clean_name i.name)

/-- Key-insertion step of the `defaultdict`: a new key is appended at the
end, an existing key left in place (Python dicts preserve insertion
order). -/
def insertKey (ks : List (List Char)) (k : List Char) : List (List Char) :=
  if k ∈ ks then ks else ks ++ [k]

/-- Iteration order of `groups.items()`: first-appearance order of the
group keys. -/
def keysOf (items : List Item) : List (List Char) :=
  items.foldl (fun ks i => insertKey ks (groupKey i)) []

/-- Members of one group, in input order. -/
def groupOf (items : List Item) (k : List Char) : List Item :=
  items.filter (fun i => decide (groupKey i = k))

/-- First regular (non-MINE) record of a group satisfying the candidate
predicate (lines 340–344). -/
def winnerOf (group : List Item) : Option Item :=
  (group.filter (fun i => !isMine i)).find? isCandidate

/-- Per-group body of the resolver loop (lines 332–355): with a winner,
good gets its projection and bad gets the MINE subset; with no winner, bad
gets the whole group. -/
def resolveGroup (group : List Item) : List Proj × List Proj :=
  match winnerOf group with
  | some w => ([projM w], (group.filter isMine).map projM)
  | none => ([], group.map projM)

/-- The resolver loop over the group keys, concatenating the per-group
good and bad outputs in key order. -/
def resolveKeys (items : List Item) : List (List Char) → List Proj × List Proj
  | [] => ([], [])
  | k :: ks =>
    let gb := resolveGroup (groupOf items k)
    let rest := resolveKeys items ks
    (gb.1 ++ rest.1, gb.2 ++ rest.2)

/-- Embedding of the grouping-and-resolution core of `main` (item_filter.py,
lines 322–355): group the transformed items by base identity, resolve each
group, and return the `(good_items, bad_items)` partition contents. -/
def main_resolve (items : List Item) : List Proj × List Proj :=
  resolveKeys items (keysOf items)

lemma foldl_min_mem : ∀ (ps : List ℚ) (p : ℚ), ps.foldl min p ∈ p :: ps := by
  intro ps
  induction ps with
  | nil => intro p; simp
  | cons q ps ih =>
    intro p
    have h := ih (min p q)
    rw [List.foldl_cons]
    rcases List.mem_cons.mp h with h1 | h1
    · rcases min_choice p q with hc | hc
      · exact List.mem_cons.mpr (Or.inl (h1.trans hc))
      · exact List.mem_cons.mpr (Or.inr (List.mem_cons.mpr (Or.inl (h1.trans hc))))
    · exact List.mem_cons.mpr (Or.inr (List.mem_cons.mpr (Or.inr h1)))

lemma foldl_min_le : ∀ (ps : List ℚ) (p x : ℚ), x ∈ p :: ps → ps.foldl min p ≤ x := by
  intro ps
  induction ps with
  | nil =>
    intro p x hx
    simp at hx
    simp [hx]
  | cons q ps ih =>
    intro p x hx
    rw [List.foldl_cons]
    rcases List.mem_cons.mp hx with h1 | h1
    · rw [h1]
      exact le_trans (ih (min p q) (min p q) (List.mem_cons_self _ _)) (min_le_left p q)
    rcases List.mem_cons.mp h1 with h2 | h2
    · rw [h2]
      exact le_trans (ih (min p q) (min p q) (List.mem_cons_self _ _)) (min_le_right p q)
    · exact ih (min p q) x (List.mem_cons_of_mem _ h2)

lemma foldl_max_mem : ∀ (ps : List ℚ) (p : ℚ), ps.foldl max p ∈ p :: ps := by
  intro ps
  induction ps with
  | nil => intro p; simp
  | cons q ps ih =>
    intro p
    have h := ih (max p q)
    rw [List.foldl_cons]
    rcases List.mem_cons.mp h with h1 | h1
    · rcases max_choice p q with hc | hc
      · exact List.mem_cons.mpr (Or.inl (h1.trans hc))
      · exact List.mem_cons.mpr (Or.inr (List.mem_cons.mpr (Or.inl (h1.trans hc))))
    · exact List.mem_cons.mpr (Or.inr (List.mem_cons.mpr (Or.inr h1)))

lemma le_foldl_max : ∀ (ps : List ℚ) (p x : ℚ), x ∈ p :: ps → x ≤ ps.foldl max p := by
  intro ps
  induction ps with
  | nil =>
    intro p x hx
    simp at hx
    simp [hx]
  | cons q ps ih =>
    intro p x hx
    rw [List.foldl_cons]
    rcases List.mem_cons.mp hx with h1 | h1
    · rw [h1]
      exact le_trans (le_max_left p q) (ih (max p q) (max p q) (List.mem_cons_self _ _))
    rcases List.mem_cons.mp h1 with h2 | h2
    · rw [h2]
      exact le_trans (le_max_right p q) (ih (max p q) (max p q) (List.mem_cons_self _ _))
    · exact ih (max p q) x (List.mem_cons_of_mem _ h2)

/-- C5: `is_price_consistent` returns false for every empty price sequence
and for every sequence whose minimum is zero; otherwise it returns true iff
`max/min ≤ threshold`, where the threshold is 4.2 when the mean price is
below 5.0 and 1.20 otherwise; in particular `is_price_consistent [] =
false`, `is_price_consistent [5,5,5] = true` and
`is_price_consistent [1,10] = false`. -/
theorem C5_is_price_consistent :
    is_price_consistent [] = false
    ∧ (∀ prices : List ℚ, (0 : ℚ) ∈ prices → (∀ x ∈ prices, (0 : ℚ) ≤ x) →
        is_price_consistent prices = false)
    ∧ (∀ (prices : List ℚ) (mn mx : ℚ), mn ∈ prices → mx ∈ prices →
        (∀ x ∈ prices, mn ≤ x ∧ x ≤ mx) → mn ≠ 0 →
        (is_price_consistent prices = true ↔
          mx / mn ≤ (if listMean prices < 5 then (21 : ℚ) / 5 else 6 / 5)))
    ∧ is_price_consistent [5, 5, 5] = true
    ∧ is_price_consistent [1, 10] = false := by
  refine ⟨by decide, ?_, ?_, by decide, by decide⟩
  · intro prices hmem hlb
    match prices with
    | [] => cases hmem
    | p :: ps =>
      have hmin : ps.foldl min p = 0 := by
        apply le_antisymm (foldl_min_le ps p 0 hmem)
        exact hlb _ (foldl_min_mem ps p)
      simp [is_price_consistent, hmin]
  · intro prices mn mx hmn hmx hb hne
    match prices with
    | [] => cases hmn
    | p :: ps =>
      have hmin : ps.foldl min p = mn := by
        apply le_antisymm (foldl_min_le ps p mn hmn)
        exact (hb _ (foldl_min_mem ps p)).1
      have hmax : ps.foldl max p = mx := by
        apply le_antisymm ((hb _ (foldl_max_mem ps p)).2)
        exact le_foldl_max ps p mx hmx
      simp only [is_price_consistent, hmin, hmax, if_neg hne]
      constructor
      · intro h
        exact of_decide_eq_true h
      · intro h
        exact decide_eq_true h

/-- C6: `passes_profit_margin` returns false for every record with
`sales < 7`; otherwise it requires factor 1.15 when `sales ≥ 15` and
factor 1.30 when `7 ≤ sales < 15`, and accepts iff `profit_margin_pair1`
or `profit_margin_pair2` is present and reaches the factor; in particular
a record with `sales = 10` and `profit_margin_pair1 = 1.25` (and no second
pair) is rejected at the 1.30 boundary. -/
theorem C6_passes_profit_margin :
    (∀ i : Item, i.sales.getD 0 < 7 → passes_profit_margin i = false)
    ∧ (∀ (i : Item) (s : Nat), i.sales = some s → 7 ≤ s →
        (passes_profit_margin i = true ↔
          (∃ v, i.profit_margin_pair1 = some v ∧
            (if 15 ≤ s then (23 : ℚ) / 20 else 13 / 10) ≤ v) ∨
          (∃ v, i.profit_margin_pair2 = some v ∧
            (if 15 ≤ s then (23 : ℚ) / 20 else 13 / 10) ≤ v)))
    ∧ passes_profit_margin
        { sales := some 10, profit_margin_pair1 := some (5 / 4) } = false := by
  refine ⟨?_, ?_, by decide⟩
  · intro i h
    simp [passes_profit_margin, h]
  · intro i s hs h7
    have hlt : ¬ (i.sales.getD 0 < 7) := by
      rw [hs]
      simpa using h7
    simp only [passes_profit_margin, hs, Option.getD_some, if_neg hlt]
    cases hp1 : i.profit_margin_pair1 <;> cases hp2 : i.profit_margin_pair2 <;>
      simp [hp1, hp2, decide_eq_true_eq] <;> exact fun a => h7

/-- Witness for C5 at concrete inputs: `[2, 0]` has minimum zero and is
rejected; on `[1, 10]` the strict threshold branch decides. -/
theorem C5_is_price_consistent_witness :
    is_price_consistent [2, 0] = false
    ∧ ¬ ((10 : ℚ) / 1 ≤ if listMean [1, 10] < 5 then (21 : ℚ) / 5 else 6 / 5) := by
  constructor
  · exact C5_is_price_consistent.2.1 [2, 0] (by decide) (by decide)
  · intro h
    have := (C5_is_price_consistent.2.2.1 [1, 10] 1 10 (by decide) (by decide)
      (by decide) (by decide)).mpr h
    rw [C5_is_price_consistent.2.2.2.2] at this
    cases this

/-- Witness for C6 at concrete inputs: a record with 20 sales and margin
pair 1.16 passes under the 1.15 factor. -/
theorem C6_passes_profit_margin_witness :
    passes_profit_margin
      { sales := some 20, profit_margin_pair1 := some (29 / 25) } = true := by
  apply (C6_passes_profit_margin.2.1
    { sales := some 20, profit_margin_pair1 := some (29 / 25) } 20 rfl (by decide)).mpr
  exact Or.inl ⟨29 / 25, rfl, by decide⟩

/-- C7: `is_good_candidate` returns false for every record with `sales < 7`
regardless of all other fields, returns false when either price list is
empty, and returns true otherwise (sales present and ≥ 7, both lists
present and non-empty); for a record with `sales = 5` both
`is_good_candidate` and `passes_profit_margin` return false. -/
theorem C7_is_good_candidate :
    (∀ i : Item, i.sales.getD 0 < 7 → is_good_candidate i = false)
    ∧ (∀ i : Item,
        i.offer_prices_list = some [] ∨ i.target_price_list = some [] →
        is_good_candidate i = false)
    ∧ (∀ (i : Item) (s : Nat) (lo lt : List ℚ), i.sales = some s → 7 ≤ s →
        i.offer_prices_list = some lo → lo ≠ [] →
        i.target_price_list = some lt → lt ≠ [] →
        is_good_candidate i = true)
    ∧ (∀ i : Item, i.sales = some 5 →
        is_good_candidate i = false ∧ passes_profit_margin i = false) := by
  refine ⟨?_, ?_, ?_, ?_⟩
  · intro i h
    simp [is_good_candidate, h]
  · intro i h
    by_cases hs : i.sales.getD 0 < 7
    · simp [is_good_candidate, hs]
    · rcases h with h | h <;> simp [is_good_candidate, hs, truthyQList, h]
  · intro i s lo lt hs h7 hlo hloNe hlt hltNe
    have hns : ¬ (i.sales.getD 0 < 7) := by
      rw [hs]
      simpa using h7
    simp [is_good_candidate, hns, truthyQList, hlo, hlt, hloNe, hltNe]
  · intro i hs
    constructor
    · simp [is_good_candidate, hs]
    · simp [passes_profit_margin, hs]

/-- Witness for C7 at concrete inputs. -/
theorem C7_is_good_candidate_witness :
    is_good_candidate
      { sales := some 9, offer_prices_list := some [1],
        target_price_list := some [2] } = true
    ∧ is_good_candidate { sales := some 9, offer_prices_list := some [] } = false := by
  constructor
  · exact C7_is_good_candidate.2.2.1
      { sales := some 9, offer_prices_list := some [1],
        target_price_list := some [2] } 9 [1] [2] rfl (by decide) rfl (by decide)
      rfl (by decide)
  · exact C7_is_good_candidate.2.1
      { sales := some 9, offer_prices_list := some [] } (Or.inl rfl)

/-- C10: the evaluator predicates are total over partial records (they are
functions in this embedding and read every key through `dict.get`); a
record with no `sales` key is treated exactly as `sales = 0` and rejected
by both predicates, and a record missing both margin pairs is rejected by
`passes_profit_margin`. -/
theorem C10_evaluators_total :
    (∀ i : Item, i.sales = none →
        is_good_candidate i = false ∧ passes_profit_margin i = false
        ∧ is_good_candidate i = is_good_candidate { i with sales := some 0 }
        ∧ passes_profit_margin i = passes_profit_margin { i with sales := some 0 })
    ∧ (∀ i : Item, i.profit_margin_pair1 = none → i.profit_margin_pair2 = none →
        passes_profit_margin i = false) := by
  constructor
  · intro i hs
    refine ⟨by simp [is_good_candidate, hs], by simp [passes_profit_margin, hs], ?_, ?_⟩
    · simp [is_good_candidate, hs]
    · simp [passes_profit_margin, hs]
  · intro i h1 h2
    by_cases hs : i.sales.getD 0 < 7
    · simp [passes_profit_margin, hs]
    · simp [passes_profit_margin, hs, h1, h2]

/-- Witness for C10 at a concrete record with both price lists present but
no sales key, and at one with sales but no margin keys. -/
theorem C10_evaluators_total_witness :
    is_good_candidate
      { offer_prices_list := some [1], target_price_list := some [2] } = false
    ∧ passes_profit_margin { sales := some 20 } = false := by
  constructor
  · exact (C10_evaluators_total.1
      { offer_prices_list := some [1], target_price_list := some [2] } rfl).1
  · exact C10_evaluators_total.2 { sales := some 20 } rfl rfl

lemma splitWsAux_words : ∀ (s acc : List Char),
    (∀ c ∈ acc, isPySpace c = false) →
    ∀ w ∈ splitWsAux s acc, w ≠ [] ∧ ∀ c ∈ w, isPySpace c = false := by
  intro s
  induction s with
  | nil =>
    intro acc hacc w hw
    by_cases h : acc = []
    · simp [splitWsAux, h] at hw
    · simp [splitWsAux, h] at hw
      subst hw
      constructor
      · simpa using h
      · intro c hc
        exact hacc c (List.mem_reverse.mp hc)
  | cons c rest ih =>
    intro acc hacc w hw
    by_cases hsp : isPySpace c = true
    · by_cases h : acc = []
      · rw [splitWsAux, if_pos hsp, if_pos h] at hw
        exact ih [] (by simp) w hw
      · rw [splitWsAux, if_pos hsp, if_neg h] at hw
        rcases List.mem_cons.mp hw with h1 | h1
        · rw [h1]
          constructor
          · simpa using h
          · intro d hd
            exact hacc d (List.mem_reverse.mp hd)
        · exact ih [] (by simp) w h1
    · rw [splitWsAux, if_neg hsp] at hw
      refine ih (c :: acc) ?_ w hw
      intro d hd
      rcases List.mem_cons.mp hd with h1 | h1
      · rw [h1]
        simpa using hsp
      · exact hacc d h1

lemma splitWsAux_chars : ∀ (s acc : List Char),
    ∀ w ∈ splitWsAux s acc, ∀ c ∈ w, c ∈ s ∨ c ∈ acc := by
  intro s
  induction s with
  | nil =>
    intro acc w hw c hc
    by_cases h : acc = []
    · simp [splitWsAux, h] at hw
    · simp [splitWsAux, h] at hw
      subst hw
      exact Or.inr (List.mem_reverse.mp hc)
  | cons a rest ih =>
    intro acc w hw c hc
    by_cases hsp : isPySpace a = true
    · by_cases h : acc = []
      · rw [splitWsAux, if_pos hsp, if_pos h] at hw
        rcases ih [] w hw c hc with h1 | h1
        · exact Or.inl (List.mem_cons_of_mem _ h1)
        · simp at h1
      · rw [splitWsAux, if_pos hsp, if_neg h] at hw
        rcases List.mem_cons.mp hw with h1 | h1
        · exact Or.inr (List.mem_reverse.mp (h1 ▸ hc))
        · rcases ih [] w h1 c hc with h2 | h2
          · exact Or.inl (List.mem_cons_of_mem _ h2)
          · simp at h2
    · rw [splitWsAux, if_neg hsp] at hw
      rcases ih (a :: acc) w hw c hc with h1 | h1
      · exact Or.inl (List.mem_cons_of_mem _ h1)
      · rcases List.mem_cons.mp h1 with h2 | h2
        · exact Or.inl (h2 ▸ List.mem_cons_self _ _)
        · exact Or.inr h2

lemma joinWords_cons_cons (w w' : List Char) (ws : List (List Char)) :
    joinWords (w :: w' :: ws) = w ++ ' ' :: joinWords (w' :: ws) := rfl

lemma joinWords_chars : ∀ (ws : List (List Char)) (c : Char),
    c ∈ joinWords ws → (∃ w ∈ ws, c ∈ w) ∨ c = ' ' := by
  intro ws
  induction ws with
  | nil => intro c hc; simp [joinWords] at hc
  | cons w ws ih =>
    intro c hc
    match ws, hc with
    | [], hc => exact Or.inl ⟨w, by simp, hc⟩
    | w' :: ws', hc =>
      rw [joinWords_cons_cons] at hc
      rcases List.mem_append.mp hc with h1 | h1
      · exact Or.inl ⟨w, by simp, h1⟩
      · rcases List.mem_cons.mp h1 with h2 | h2
        · exact Or.inr h2
        · rcases ih c h2 with ⟨u, hu, hcu⟩ | h3
          · exact Or.inl ⟨u, List.mem_cons_of_mem _ hu, hcu⟩
          · exact Or.inr h3

lemma splitWsAux_append_word : ∀ (w s acc : List Char),
    (∀ c ∈ w, isPySpace c = false) →
    splitWsAux (w ++ s) acc = splitWsAux s (w.reverse ++ acc) := by
  intro w
  induction w with
  | nil => intro s acc h; simp
  | cons c w ih =>
    intro s acc h
    have hc : isPySpace c = false := h c (List.mem_cons_self _ _)
    rw [List.cons_append, splitWsAux, if_neg (by simp [hc])]
    rw [ih s (c :: acc) (fun d hd => h d (List.mem_cons_of_mem _ hd))]
    simp

lemma splitWs_joinWords : ∀ ws : List (List Char),
    (∀ w ∈ ws, w ≠ [] ∧ ∀ c ∈ w, isPySpace c = false) →
    splitWs (joinWords ws) = ws := by
  intro ws
  induction ws with
  | nil => intro h; rfl
  | cons w ws ih =>
    intro h
    have hw := h w (List.mem_cons_self _ _)
    match ws with
    | [] =>
      show splitWsAux (joinWords [w]) [] = [w]
      rw [joinWords]
      have := splitWsAux_append_word w [] [] hw.2
      rw [← List.append_nil w, this]
      rw [splitWsAux, if_neg (by simpa using hw.1)]
      simp
    | w' :: ws' =>
      show splitWsAux (joinWords (w :: w' :: ws')) [] = w :: w' :: ws'
      rw [joinWords_cons_cons]
      rw [splitWsAux_append_word w (' ' :: joinWords (w' :: ws')) [] hw.2]
      rw [splitWsAux, if_pos (by decide)]
      rw [List.append_nil]
      rw [if_neg (by simpa using hw.1)]
      rw [List.reverse_reverse]
      have := ih (fun u hu => h u (List.mem_cons_of_mem _ hu))
      rw [show splitWsAux (joinWords (w' :: ws')) [] = splitWs (joinWords (w' :: ws')) from rfl]
      rw [this]

lemma nfkc_of_no_tm : ∀ s : List Char, (∀ c ∈ s, c ≠ tmChar) → nfkc s = s := by
  intro s
  induction s with
  | nil => intro h; rfl
  | cons c s ih =>
    intro h
    have hc : c ≠ tmChar := h c (List.mem_cons_self _ _)
    show nfkcChar c ++ nfkc s = c :: s
    rw [nfkcChar, if_neg hc, ih (fun d hd => h d (List.mem_cons_of_mem _ hd))]
    rfl

lemma contains_false_of_ascii : ∀ s : List Char,
    (∀ c ∈ s, c.toNat < 128) → s.contains aHat = false := by
  intro s hascii
  have hnm : aHat ∉ s := by
    intro hmem
    have := hascii aHat hmem
    revert this
    decide
  simpa using hnm

/-- Normal form of `clean_name` on a non-empty string that avoids both the
artifact character and the trademark sign: only whitespace collapse acts. -/
lemma clean_name_plain (s : List Char) (hnil : s ≠ [])
    (hnoA : s.contains aHat = false) (hnoTm : ∀ c ∈ s, c ≠ tmChar) :
    clean_name s = joinWords (splitWs s) := by
  rw [clean_name, if_neg hnil, hnoA]
  have hfil : (s.filter fun c => decide (c ≠ tmChar)) = s :=
    List.filter_eq_self.mpr (fun a ha => by simp [hnoTm a ha])
  simp only [Bool.false_eq_true, if_false]
  rw [hfil, nfkc_of_no_tm s hnoTm]

/-- Counterexample to C4 as stated: on the input
U+2028 U+00E2 U+0082 U+00AC the first pass cannot repair the artifact
(the line separator is not Latin-1), but strips it as whitespace; the
second pass then re-decodes the remaining three characters as UTF-8,
yielding `€`.  So `normalize(normalize(x)) ≠ normalize(x)`. -/
theorem C4_counterexample :
    clean_name (clean_name
        [Char.ofNat 0x2028, Char.ofNat 0xE2, Char.ofNat 0x82, Char.ofNat 0xAC]) ≠
      clean_name [Char.ofNat 0x2028, Char.ofNat 0xE2, Char.ofNat 0x82, Char.ofNat 0xAC] := by
  decide

/-- C4 (amended): the name normalizer is idempotent on every ASCII input;
full idempotence fails (see the counterexample) because a string kept
un-repaired on the first pass can become a repairable byte sequence after
whitespace stripping. -/
theorem C4_clean_name_ascii_idempotent (s : List Char)
    (hascii : ∀ c ∈ s, c.toNat < 128) :
    clean_name (clean_name s) = clean_name s := by
  by_cases hnil : s = []
  · rw [hnil]
    rfl
  · have hnoTm : ∀ c ∈ s, c ≠ tmChar := by
      intro c hc heq
      have := hascii c hc
      rw [heq] at this
      revert this
      decide
    have h1 : clean_name s = joinWords (splitWs s) :=
      clean_name_plain s hnil (contains_false_of_ascii s hascii) hnoTm
    have hyascii : ∀ c ∈ clean_name s, c.toNat < 128 := by
      rw [h1]
      intro c hc
      rcases joinWords_chars (splitWs s) c hc with ⟨w, hw, hcw⟩ | hsp
      · rcases splitWsAux_chars s [] w hw c hcw with h2 | h2
        · exact hascii c h2
        · simp at h2
      · rw [hsp]
        decide
    by_cases hy : clean_name s = []
    · rw [hy]
      rfl
    · have hyTm : ∀ c ∈ clean_name s, c ≠ tmChar := by
        intro c hc heq
        have := hyascii c hc
        rw [heq] at this
        revert this
        decide
      have h2 : clean_name (clean_name s) = joinWords (splitWs (clean_name s)) :=
        clean_name_plain (clean_name s) hy
          (contains_false_of_ascii (clean_name s) hyascii) hyTm
      rw [h2, h1, splitWs_joinWords (splitWs s) (splitWsAux_words s [] (by simp))]

/-- Witness for the amended C4 at a concrete ASCII input. -/
theorem C4_clean_name_ascii_idempotent_witness :
    clean_name (clean_name "StatTrak  M249 | Magma ".toList) =
      clean_name "StatTrak  M249 | Magma ".toList :=
  C4_clean_name_ascii_idempotent "StatTrak  M249 | Magma ".toList (by decide)

lemma parseOrders_eq_filterMap : ∀ (l : List RawOrder) (v : List ℚ),
    parseOrders l = some v → v = l.filterMap orderVal := by
  intro l
  induction l with
  | nil =>
    intro v hv
    simp [parseOrders] at hv
    simp [hv]
  | cons o rest ih =>
    intro v hv
    rw [parseOrders] at hv
    cases htr : truthyS o.price with
    | none =>
      rw [htr] at hv
      rw [List.filterMap_cons, show orderVal o = none from by simp [orderVal, htr]]
      exact ih v hv
    | some s =>
      rw [htr] at hv
      have hv2 : (match parseMoney s with
          | none => none
          | some q => Option.map (fun x => q :: x) (parseOrders rest)) = some v := hv
      cases hpm : parseMoney s with
      | none => rw [hpm] at hv2; cases hv2
      | some q =>
        rw [hpm] at hv2
        cases hrest : parseOrders rest with
        | none => rw [hrest] at hv2; cases hv2
        | some v' =>
          rw [hrest] at hv2
          simp at hv2
          rw [List.filterMap_cons,
            show orderVal o = some q from by simp [orderVal, htr, hpm]]
          rw [← hv2, ih v' hrest]

lemma transform_base (cutoff : PyDateTime) (raw : RawItem) :
    (transform_item cutoff raw).sales = some (processSales cutoff raw.sales_history).1
    ∧ (transform_item cutoff raw).recent_sales_prices =
        some (processSales cutoff raw.sales_history).2
    ∧ (transform_item cutoff raw).name = clean_name raw.name
    ∧ (transform_item cutoff raw).wear = raw.wear := by
  refine ⟨?_, ?_, ?_, ?_⟩ <;>
    · unfold transform_item
      repeat' split
      all_goals simp_all
      all_goals repeat' split
      all_goals simp_all

lemma transform_offers (cutoff : PyDateTime) (raw : RawItem) (lo : List ℚ)
    (hO : parseOrders raw.offer_prices = some lo) :
    (transform_item cutoff raw).offer_prices_list = some ((sortAsc lo).take 3)
    ∧ (transform_item cutoff raw).offer_prices_quantity =
        some ((sortAsc lo).take 3).length := by
  constructor <;>
    · unfold transform_item
      rw [hO]
      repeat' split
      all_goals simp_all
      all_goals repeat' split
      all_goals simp_all

lemma transform_targets (cutoff : PyDateTime) (raw : RawItem) (lo lt : List ℚ)
    (hO : parseOrders raw.offer_prices = some lo)
    (hT : parseOrders raw.target_prices = some lt) :
    (transform_item cutoff raw).target_price_list = some ((sortDesc lt).take 3)
    ∧ (transform_item cutoff raw).target_price_list_quantity =
        some ((sortDesc lt).take 3).length := by
  constructor <;>
    · unfold transform_item
      rw [hO, hT]
      repeat' split
      all_goals simp_all
      all_goals repeat' split
      all_goals simp_all

lemma transform_margins (cutoff : PyDateTime) (raw : RawItem) (lo lt : List ℚ)
    (hO : parseOrders raw.offer_prices = some lo)
    (hT : parseOrders raw.target_prices = some lt)
    (ht1 : ((sortDesc lt).take 3).headD (1 / 100) ≠ 0)
    (ht2 : ((sortDesc lt).take 3).getD 1 (1 / 100) ≠ 0) :
    (transform_item cutoff raw).profit_margin_pair1 =
      some (((sortAsc lo).take 3).headD (1 / 100) / ((sortDesc lt).take 3).headD (1 / 100))
    ∧ (transform_item cutoff raw).profit_margin_pair2 =
      some (((sortAsc lo).take 3).getD 1 (1 / 100) /
        ((sortDesc lt).take 3).getD 1 (1 / 100))
    ∧ (transform_item cutoff raw).average_recent_sale_price.isSome = true
    ∧ (transform_item cutoff raw).price_variance.isSome = true := by
  refine ⟨?_, ?_, ?_, ?_⟩ <;>
    · unfold transform_item
      rw [hO, hT]
      repeat' split
      all_goals simp_all
      all_goals repeat' split
      all_goals simp_all

lemma transform_offer_abort (cutoff : PyDateTime) (raw : RawItem)
    (hO : parseOrders raw.offer_prices = none) :
    (transform_item cutoff raw).offer_prices_list = none
    ∧ (transform_item cutoff raw).target_price_list = none
    ∧ (transform_item cutoff raw).profit_margin_pair1 = none
    ∧ (transform_item cutoff raw).profit_margin_pair2 = none
    ∧ (transform_item cutoff raw).average_recent_sale_price = none
    ∧ (transform_item cutoff raw).price_variance = none := by
  refine ⟨?_, ?_, ?_, ?_, ?_, ?_⟩ <;>
    · unfold transform_item
      rw [hO]

lemma transform_target_abort (cutoff : PyDateTime) (raw : RawItem) (lo : List ℚ)
    (hO : parseOrders raw.offer_prices = some lo)
    (hT : parseOrders raw.target_prices = none) :
    (transform_item cutoff raw).offer_prices_list = some ((sortAsc lo).take 3)
    ∧ (transform_item cutoff raw).target_price_list = none
    ∧ (transform_item cutoff raw).profit_margin_pair1 = none
    ∧ (transform_item cutoff raw).profit_margin_pair2 = none
    ∧ (transform_item cutoff raw).average_recent_sale_price = none := by
  refine ⟨?_, ?_, ?_, ?_, ?_⟩ <;>
    · unfold transform_item
      rw [hO, hT]

lemma transform_margin1_abort (cutoff : PyDateTime) (raw : RawItem) (lo lt : List ℚ)
    (hO : parseOrders raw.offer_prices = some lo)
    (hT : parseOrders raw.target_prices = some lt)
    (ht1 : ((sortDesc lt).take 3).headD (1 / 100) = 0) :
    (transform_item cutoff raw).profit_margin_pair1 = none
    ∧ (transform_item cutoff raw).profit_margin_pair2 = none
    ∧ (transform_item cutoff raw).average_recent_sale_price = none
    ∧ (transform_item cutoff raw).target_price_list = some ((sortDesc lt).take 3) := by
  refine ⟨?_, ?_, ?_, ?_⟩ <;>
    · unfold transform_item
      rw [hO, hT]
      repeat' split
      all_goals simp_all

lemma transform_margin2_abort (cutoff : PyDateTime) (raw : RawItem) (lo lt : List ℚ)
    (hO : parseOrders raw.offer_prices = some lo)
    (hT : parseOrders raw.target_prices = some lt)
    (ht1 : ((sortDesc lt).take 3).headD (1 / 100) ≠ 0)
    (ht2 : ((sortDesc lt).take 3).getD 1 (1 / 100) = 0) :
    (transform_item cutoff raw).profit_margin_pair1 =
      some (((sortAsc lo).take 3).headD (1 / 100) / ((sortDesc lt).take 3).headD (1 / 100))
    ∧ (transform_item cutoff raw).profit_margin_pair2 = none
    ∧ (transform_item cutoff raw).average_recent_sale_price = none := by
  refine ⟨?_, ?_, ?_⟩ <;>
    · unfold transform_item
      rw [hO, hT]
      repeat' split
      all_goals simp_all

lemma saleKeep_none (cutoff : PyDateTime) (sh : RawSale)
    (h : (truthyS sh.price).bind parseMoney = none
      ∨ parse_dateO (resolveDateStr sh) = none) :
    saleKeep cutoff sh = none := by
  unfold saleKeep
  rcases h with h | h
  · rw [h]
  · simp only [h]
    cases hp : (truthyS sh.price).bind parseMoney <;> rfl

lemma processSales_skip (cutoff : PyDateTime) (sh : RawSale)
    (hskip : saleKeep cutoff sh = none) (pre post : List RawSale) :
    processSales cutoff (pre ++ sh :: post) = processSales cutoff (pre ++ post) := by
  unfold processSales
  rw [List.filterMap_append, List.filterMap_append, List.filterMap_cons, hskip]

lemma transform_skip_sale (cutoff : PyDateTime) (raw : RawItem) (sh : RawSale)
    (hskip : saleKeep cutoff sh = none) (pre post : List RawSale) :
    transform_item cutoff { raw with sales_history := pre ++ sh :: post } =
      transform_item cutoff { raw with sales_history := pre ++ post } := by
  unfold transform_item
  simp only [processSales_skip cutoff sh hskip pre post]

instance : IsTotal ℚ (· ≥ ·) := ⟨fun a b => le_total b a⟩

instance : IsTrans ℚ (· ≥ ·) := ⟨fun _ _ _ h1 h2 => le_trans h2 h1⟩

instance : IsAntisymm ℚ (· ≥ ·) := ⟨fun _ _ h1 h2 => le_antisymm h2 h1⟩

/-- Reference cutoff used for the concrete runs: a fixed value of
`datetime.now() - timedelta(days=30)`. -/
def cut0 : PyDateTime := ⟨2025, 1, 1, 0, 0, 0⟩

/-- A well-formed sale inside the 30-day window of `cut0`. -/
def okSale : RawSale :=
  { price := some "$2.00".toList, date_time := some "2025-02-03".toList }

/-- A sale whose present price string fails `float`. -/
def badPriceSale : RawSale :=
  { price := some "$x".toList, date_time := some "2025-02-03".toList }

/-- Raw item with one good sale, a well-formed offer, a malformed offer
price, and a well-formed target price. -/
def c2RawBad : RawItem :=
  { name := "Beta".toList, sales_history := [okSale],
    offer_prices := [⟨some "$1".toList⟩, ⟨some "abc".toList⟩],
    target_prices := [⟨some "$2".toList⟩] }

/-- Raw item whose only target price is the present string `"$0"`. -/
def c3RawZero : RawItem :=
  { name := "Gamma".toList,
    offer_prices := [⟨some "$1".toList⟩],
    target_prices := [⟨some "$0".toList⟩] }

/-- Counterexample to C2 as stated: in `c2RawBad` the single malformed
offer price `"abc"` raises inside the offer comprehension; the exception is
caught only by the outer handler, so the offer/target lists, both margins,
the mean and the variance are all left uncomputed even though the target
price and the sales history are well-formed.  Only the fields assigned
before the raise survive. -/
theorem C2_counterexample :
    (transform_item cut0 c2RawBad).sales = some 1
    ∧ (transform_item cut0 c2RawBad).offer_prices_list = none
    ∧ (transform_item cut0 c2RawBad).target_price_list = none
    ∧ (transform_item cut0 c2RawBad).profit_margin_pair1 = none
    ∧ (transform_item cut0 c2RawBad).profit_margin_pair2 = none
    ∧ (transform_item cut0 c2RawBad).average_recent_sale_price = none
    ∧ (transform_item cut0 c2RawBad).price_variance = none := by
  decide

/-- C2 (amended): `transform_item` is total, always produces the name,
wear, sales count and recent-sales list (the sale loop recovers from every
per-entry failure, so a malformed sale price or sale date drops exactly
that sale); but a malformed offer or target price entry aborts the rest of
the transform, leaving the order-book lists, margins, mean and variance
unassigned instead of computed. -/
theorem C2_transform_error_handling :
    (∀ (cutoff : PyDateTime) (raw : RawItem),
        (transform_item cutoff raw).sales =
          some (raw.sales_history.filterMap (saleKeep cutoff)).length
        ∧ (transform_item cutoff raw).recent_sales_prices =
          some (raw.sales_history.filterMap (saleKeep cutoff))
        ∧ (transform_item cutoff raw).name = clean_name raw.name
        ∧ (transform_item cutoff raw).wear = raw.wear)
    ∧ (∀ (cutoff : PyDateTime) (raw : RawItem) (sh : RawSale)
        (pre post : List RawSale),
        (truthyS sh.price).bind parseMoney = none
          ∨ parse_dateO (resolveDateStr sh) = none →
        transform_item cutoff { raw with sales_history := pre ++ sh :: post } =
          transform_item cutoff { raw with sales_history := pre ++ post })
    ∧ (∀ (cutoff : PyDateTime) (raw : RawItem),
        parseOrders raw.offer_prices = none →
        (transform_item cutoff raw).offer_prices_list = none
        ∧ (transform_item cutoff raw).target_price_list = none
        ∧ (transform_item cutoff raw).profit_margin_pair1 = none
        ∧ (transform_item cutoff raw).average_recent_sale_price = none)
    ∧ (∀ (cutoff : PyDateTime) (raw : RawItem) (lo : List ℚ),
        parseOrders raw.offer_prices = some lo →
        parseOrders raw.target_prices = none →
        (transform_item cutoff raw).offer_prices_list = some ((sortAsc lo).take 3)
        ∧ (transform_item cutoff raw).target_price_list = none
        ∧ (transform_item cutoff raw).profit_margin_pair1 = none
        ∧ (transform_item cutoff raw).average_recent_sale_price = none) := by
  refine ⟨?_, ?_, ?_, ?_⟩
  · intro cutoff raw
    exact transform_base cutoff raw
  · intro cutoff raw sh pre post h
    exact transform_skip_sale cutoff raw sh (saleKeep_none cutoff sh h) pre post
  · intro cutoff raw h
    obtain ⟨h1, h2, h3, _, h5, _⟩ := transform_offer_abort cutoff raw h
    exact ⟨h1, h2, h3, h5⟩
  · intro cutoff raw lo hO hT
    obtain ⟨h1, h2, h3, _, h5⟩ := transform_target_abort cutoff raw lo hO hT
    exact ⟨h1, h2, h3, h5⟩

/-- Witness for the amended C2: dropping the malformed sale from a history
does not change the transform, at concrete inputs. -/
theorem C2_transform_error_handling_witness :
    transform_item cut0 { c2RawBad with sales_history := [okSale] ++ badPriceSale :: [] } =
      transform_item cut0 { c2RawBad with sales_history := [okSale] ++ [] } :=
  C2_transform_error_handling.2.1 cut0 c2RawBad badPriceSale [okSale] []
    (Or.inl (by decide))

/-- Counterexample to C3 as stated: in `c3RawZero` the target list is the
present price 0, so `margin_pair1 = offer1 / 0.0` raises ZeroDivisionError
(caught by the outer handler); both margins are left unassigned instead of
computed — the 0.01 substitution guards only missing entries, not zero
ones. -/
theorem C3_counterexample :
    (transform_item cut0 c3RawZero).offer_prices_list = some [1]
    ∧ (transform_item cut0 c3RawZero).target_price_list = some [0]
    ∧ (transform_item cut0 c3RawZero).profit_margin_pair1 = none
    ∧ (transform_item cut0 c3RawZero).profit_margin_pair2 = none := by
  decide

/-- C3 (amended): when the offer and target comprehensions both succeed,
a missing numerator or denominator at index 0/1 is substituted with 0.01,
and both margins are computed whenever the two used denominators are
nonzero (in particular both margins are 0.01/0.01 = 1 when both books are
empty); but a zero first or second target price makes the corresponding
division raise, leaving the remaining margin fields unassigned. -/
theorem C3_profit_margin_defaults :
    (∀ (cutoff : PyDateTime) (raw : RawItem) (lo lt : List ℚ),
        parseOrders raw.offer_prices = some lo →
        parseOrders raw.target_prices = some lt →
        ((sortDesc lt).take 3).headD (1 / 100) ≠ 0 →
        ((sortDesc lt).take 3).getD 1 (1 / 100) ≠ 0 →
        (transform_item cutoff raw).profit_margin_pair1 =
          some (((sortAsc lo).take 3).headD (1 / 100) /
            ((sortDesc lt).take 3).headD (1 / 100))
        ∧ (transform_item cutoff raw).profit_margin_pair2 =
          some (((sortAsc lo).take 3).getD 1 (1 / 100) /
            ((sortDesc lt).take 3).getD 1 (1 / 100)))
    ∧ (∀ (cutoff : PyDateTime) (raw : RawItem),
        raw.offer_prices = [] → raw.target_prices = [] →
        (transform_item cutoff raw).profit_margin_pair1 = some 1
        ∧ (transform_item cutoff raw).profit_margin_pair2 = some 1)
    ∧ (∀ (cutoff : PyDateTime) (raw : RawItem) (lo lt : List ℚ),
        parseOrders raw.offer_prices = some lo →
        parseOrders raw.target_prices = some lt →
        ((sortDesc lt).take 3).headD (1 / 100) = 0 →
        (transform_item cutoff raw).profit_margin_pair1 = none
        ∧ (transform_item cutoff raw).profit_margin_pair2 = none) := by
  refine ⟨?_, ?_, ?_⟩
  · intro cutoff raw lo lt hO hT ht1 ht2
    obtain ⟨h1, h2, _, _⟩ := transform_margins cutoff raw lo lt hO hT ht1 ht2
    exact ⟨h1, h2⟩
  · intro cutoff raw hOe hTe
    have hO : parseOrders raw.offer_prices = some [] := by rw [hOe]; rfl
    have hT : parseOrders raw.target_prices = some [] := by rw [hTe]; rfl
    obtain ⟨h1, h2, _, _⟩ :=
      transform_margins cutoff raw [] [] hO hT (by decide) (by decide)
    rw [h1, h2]
    norm_num [sortAsc, sortDesc]
  · intro cutoff raw lo lt hO hT ht1
    obtain ⟨h1, h2, _, _⟩ := transform_margin1_abort cutoff raw lo lt hO hT ht1
    exact ⟨h1, h2⟩

/-- Witness for the amended C3 at concrete inputs: both books present and
nonzero. -/
theorem C3_profit_margin_defaults_witness :
    (transform_item cut0
      { name := "Delta".toList,
        offer_prices := [⟨some "$3".toList⟩, ⟨some "$1".toList⟩],
        target_prices := [⟨some "$4".toList⟩, ⟨some "$2".toList⟩] }).profit_margin_pair1 =
      some (1 / 4) := by
  have h := (C3_profit_margin_defaults.1 cut0
    { name := "Delta".toList,
      offer_prices := [⟨some "$3".toList⟩, ⟨some "$1".toList⟩],
      target_prices := [⟨some "$4".toList⟩, ⟨some "$2".toList⟩] }
    [3, 1] [4, 2] (by decide) (by decide) (by decide) (by decide)).1
  rw [h]
  decide

/-- Spec-side offer list (`"the 3 lowest parsed offer prices sorted
ascending"`), written from the specification's words: invalid entries are
skipped, the parseable ones are sorted and truncated.  Used to compare the
code's behaviour against the claimed one. -/
def specOfferList (raw : RawItem) : List ℚ :=
  (sortAsc (raw.offer_prices.filterMap orderVal)).take 3

/-- Spec-side target list (`"the 3 highest parsed target prices sorted
descending"`), written from the specification's words. -/
def specTargetList (raw : RawItem) : List ℚ :=
  (sortDesc (raw.target_prices.filterMap orderVal)).take 3

/-- Raw item with one parseable and one malformed offer price. -/
def c8RawBad : RawItem :=
  { name := "Epsilon".toList,
    offer_prices := [⟨some "$2".toList⟩, ⟨some "oops".toList⟩],
    target_prices := [⟨some "$3".toList⟩] }

/-- Counterexample to C8 as stated: with a malformed offer price present,
the transformed record does not carry the 3 lowest parseable offer prices
(`[2]` here) — the offer key is absent altogether, because the comprehension
raises and the outer handler aborts the assignment. -/
theorem C8_counterexample :
    (transform_item cut0 c8RawBad).offer_prices_list ≠ some (specOfferList c8RawBad)
    ∧ (transform_item cut0 c8RawBad).offer_prices_list = none := by
  decide

/-- C8 (amended): whenever the offer and target comprehensions succeed (no
present price string fails to parse), the transformed record carries
exactly the 3 lowest parsed offer prices sorted ascending and the 3
highest parsed target prices sorted descending, both of length at most 3,
and the result is independent of the input order of the raw entries; when
a present price fails to parse the lists are absent instead (see the
counterexample). -/
theorem C8_list_invariants :
    ∀ (cutoff : PyDateTime) (raw : RawItem) (lo lt : List ℚ),
      parseOrders raw.offer_prices = some lo →
      parseOrders raw.target_prices = some lt →
      ((transform_item cutoff raw).offer_prices_list = some (specOfferList raw)
        ∧ (specOfferList raw).length ≤ 3
        ∧ List.Sorted (· ≤ ·) (specOfferList raw)
        ∧ (transform_item cutoff raw).target_price_list = some (specTargetList raw)
        ∧ (specTargetList raw).length ≤ 3
        ∧ List.Sorted (· ≥ ·) (specTargetList raw))
      ∧ ∀ (cutoff' : PyDateTime) (raw' : RawItem) (lo' lt' : List ℚ),
          parseOrders raw'.offer_prices = some lo' →
          parseOrders raw'.target_prices = some lt' →
          raw.offer_prices.Perm raw'.offer_prices →
          raw.target_prices.Perm raw'.target_prices →
          (transform_item cutoff raw).offer_prices_list =
            (transform_item cutoff' raw').offer_prices_list
          ∧ (transform_item cutoff raw).target_price_list =
            (transform_item cutoff' raw').target_price_list := by
  intro cutoff raw lo lt hO hT
  have hlo : lo = raw.offer_prices.filterMap orderVal := parseOrders_eq_filterMap _ lo hO
  have hlt : lt = raw.target_prices.filterMap orderVal := parseOrders_eq_filterMap _ lt hT
  have hOff := (transform_offers cutoff raw lo hO).1
  have hTar := (transform_targets cutoff raw lo lt hO hT).1
  have hSpecO : specOfferList raw = (sortAsc lo).take 3 := by
    rw [specOfferList, hlo]
  have hSpecT : specTargetList raw = (sortDesc lt).take 3 := by
    rw [specTargetList, hlt]
  constructor
  · refine ⟨by rw [hSpecO, hOff], ?_, ?_, by rw [hSpecT, hTar], ?_, ?_⟩
    · rw [hSpecO, List.length_take]
      exact min_le_left 3 _
    · rw [hSpecO]
      exact List.Pairwise.sublist (List.take_sublist 3 _)
        (List.sorted_insertionSort (· ≤ ·) lo)
    · rw [hSpecT, List.length_take]
      exact min_le_left 3 _
    · rw [hSpecT]
      exact List.Pairwise.sublist (List.take_sublist 3 _)
        (List.sorted_insertionSort (· ≥ ·) lt)
  · intro cutoff' raw' lo' lt' hO' hT' hpO hpT
    have hlo' : lo' = raw'.offer_prices.filterMap orderVal :=
      parseOrders_eq_filterMap _ lo' hO'
    have hlt' : lt' = raw'.target_prices.filterMap orderVal :=
      parseOrders_eq_filterMap _ lt' hT'
    have hOff' := (transform_offers cutoff' raw' lo' hO').1
    have hTar' := (transform_targets cutoff' raw' lo' lt' hO' hT').1
    have hpl : lo.Perm lo' := by
      rw [hlo, hlo']
      exact hpO.filterMap orderVal
    have hpt : lt.Perm lt' := by
      rw [hlt, hlt']
      exact hpT.filterMap orderVal
    have hsort : sortAsc lo = sortAsc lo' :=
      List.eq_of_perm_of_sorted
        (((List.perm_insertionSort _ lo).trans hpl).trans
          (List.perm_insertionSort _ lo').symm)
        (List.sorted_insertionSort (· ≤ ·) lo)
        (List.sorted_insertionSort (· ≤ ·) lo')
    have hsortT : sortDesc lt = sortDesc lt' :=
      List.eq_of_perm_of_sorted
        (((List.perm_insertionSort _ lt).trans hpt).trans
          (List.perm_insertionSort _ lt').symm)
        (List.sorted_insertionSort (· ≥ ·) lt)
        (List.sorted_insertionSort (· ≥ ·) lt')
    constructor
    · rw [hOff, hOff', hsort]
    · rw [hTar, hTar', hsortT]

/-- Witness for the amended C8: two orderings of the same books yield the
same truncated sorted lists. -/
theorem C8_list_invariants_witness :
    (transform_item cut0
        { name := "Zeta".toList,
          offer_prices := [⟨some "$3".toList⟩, ⟨some "$1".toList⟩, ⟨some "$2".toList⟩,
            ⟨some "$5".toList⟩],
          target_prices := [⟨some "$2".toList⟩, ⟨some "$4".toList⟩] }).offer_prices_list =
      (transform_item cut0
        { name := "Zeta".toList,
          offer_prices := [⟨some "$5".toList⟩, ⟨some "$2".toList⟩, ⟨some "$1".toList⟩,
            ⟨some "$3".toList⟩],
          target_prices := [⟨some "$4".toList⟩, ⟨some "$2".toList⟩] }).offer_prices_list :=
  ((C8_list_invariants cut0
    { name := "Zeta".toList,
      offer_prices := [⟨some "$3".toList⟩, ⟨some "$1".toList⟩, ⟨some "$2".toList⟩,
        ⟨some "$5".toList⟩],
      target_prices := [⟨some "$2".toList⟩, ⟨some "$4".toList⟩] }
    [3, 1, 2, 5] [2, 4] (by decide) (by decide)).2 cut0
    { name := "Zeta".toList,
      offer_prices := [⟨some "$5".toList⟩, ⟨some "$2".toList⟩, ⟨some "$1".toList⟩,
        ⟨some "$3".toList⟩],
      target_prices := [⟨some "$4".toList⟩, ⟨some "$2".toList⟩] }
    [5, 2, 1, 3] [4, 2] (by decide) (by decide) (by decide) (by decide)).1

lemma mem_foldl_insertKey : ∀ (items : List Item) (acc : List (List Char)) (k : List Char),
    k ∈ acc → k ∈ items.foldl (fun ks i => insertKey ks (groupKey i)) acc := by
  intro items
  induction items with
  | nil => intro acc k h; exact h
  | cons i items ih =>
    intro acc k h
    rw [List.foldl_cons]
    apply ih
    unfold insertKey
    split
    · exact h
    · exact List.mem_append_left _ h

lemma groupKey_mem_foldl : ∀ (items : List Item) (acc : List (List Char)) (i : Item),
    i ∈ items → groupKey i ∈ items.foldl (fun ks j => insertKey ks (groupKey j)) acc := by
  intro items
  induction items with
  | nil => intro acc i h; cases h
  | cons j items ih =>
    intro acc i h
    rw [List.foldl_cons]
    rcases List.mem_cons.mp h with h1 | h1
    · rw [h1]
      apply mem_foldl_insertKey
      unfold insertKey
      split
      · assumption
      · exact List.mem_append_right _ (List.mem_singleton.mpr rfl)
    · exact ih _ i h1

lemma groupKey_mem_keysOf (items : List Item) (i : Item) (h : i ∈ items) :
    groupKey i ∈ keysOf items :=
  groupKey_mem_foldl items [] i h

lemma nodup_foldl_insertKey : ∀ (items : List Item) (acc : List (List Char)),
    acc.Nodup → (items.foldl (fun ks i => insertKey ks (groupKey i)) acc).Nodup := by
  intro items
  induction items with
  | nil => intro acc h; exact h
  | cons i items ih =>
    intro acc h
    rw [List.foldl_cons]
    apply ih
    unfold insertKey
    split
    · exact h
    · rename_i hnm
      simp [List.nodup_append, h, hnm]

lemma nodup_keysOf (items : List Item) : (keysOf items).Nodup :=
  nodup_foldl_insertKey items [] List.nodup_nil

lemma winnerOf_spec (g : List Item) (w : Item) (h : winnerOf g = some w) :
    w ∈ g ∧ isMine w = false ∧ isCandidate w = true := by
  unfold winnerOf at h
  have hmem := List.mem_of_find?_eq_some h
  have hcand := List.find?_some h
  have := List.mem_filter.mp hmem
  refine ⟨this.1, ?_, hcand⟩
  simpa using this.2

lemma resolveGroup_good_len (g : List Item) : (resolveGroup g).1.length ≤ 1 := by
  unfold resolveGroup
  split <;> simp

lemma resolveGroup_mine_bad (g : List Item) (i : Item) (h : i ∈ g)
    (hm : isMine i = true) : projM i ∈ (resolveGroup g).2 := by
  unfold resolveGroup
  split
  · exact List.mem_map_of_mem projM (List.mem_filter.mpr ⟨h, hm⟩)
  · exact List.mem_map_of_mem projM h

lemma resolveGroup_nowinner_bad (g : List Item) (i : Item) (h : i ∈ g)
    (hw : winnerOf g = none) : projM i ∈ (resolveGroup g).2 := by
  unfold resolveGroup
  rw [hw]
  exact List.mem_map_of_mem projM h

lemma resolveGroup_good_src (g : List Item) (p : Proj)
    (h : p ∈ (resolveGroup g).1) :
    ∃ w, winnerOf g = some w ∧ p = projM w := by
  unfold resolveGroup at h
  revert h
  split
  · intro h
    rename_i w hw
    exact ⟨w, hw, List.mem_singleton.mp h⟩
  · intro h
    cases h

lemma resolveGroup_len (g : List Item) :
    (resolveGroup g).1.length + (resolveGroup g).2.length ≤ g.length := by
  unfold resolveGroup
  cases hw : winnerOf g with
  | none => simp
  | some w =>
    simp only [List.length_map, List.length_singleton]
    have hmem : w ∈ g.filter (fun i => !isMine i) := by
      unfold winnerOf at hw
      exact List.mem_of_find?_eq_some hw
    have hpos : 0 < (g.filter (fun i => !isMine i)).length :=
      List.length_pos_of_mem hmem
    have hsplit := @List.length_eq_length_filter_add Item g isMine
    omega

lemma resolveKeys_good_len : ∀ (items : List Item) (ks : List (List Char)),
    (resolveKeys items ks).1.length ≤ ks.length := by
  intro items ks
  induction ks with
  | nil => simp [resolveKeys]
  | cons k ks ih =>
    rw [resolveKeys]
    simp only [List.length_append, List.length_cons]
    have h1 := resolveGroup_good_len (groupOf items k)
    omega

lemma mem_groupOf (items : List Item) (i : Item) (h : i ∈ items) :
    i ∈ groupOf items (groupKey i) := by
  unfold groupOf
  exact List.mem_filter.mpr ⟨h, by simp⟩

lemma groupOf_key (items : List Item) (k : List Char) (i : Item)
    (h : i ∈ groupOf items k) : groupKey i = k ∧ i ∈ items := by
  unfold groupOf at h
  have := List.mem_filter.mp h
  exact ⟨by simpa using this.2, this.1⟩

lemma resolveKeys_mine_bad : ∀ (items : List Item) (ks : List (List Char)) (i : Item),
    i ∈ items → groupKey i ∈ ks → isMine i = true →
    projM i ∈ (resolveKeys items ks).2 := by
  intro items ks
  induction ks with
  | nil => intro i _ hk; cases hk
  | cons k ks ih =>
    intro i hi hk hm
    rw [resolveKeys]
    simp only [List.mem_append]
    rcases List.mem_cons.mp hk with h1 | h1
    · left
      apply resolveGroup_mine_bad _ i _ hm
      rw [← h1]
      exact mem_groupOf items i hi
    · right
      exact ih i hi h1 hm

lemma resolveKeys_nowinner_bad : ∀ (items : List Item) (ks : List (List Char)) (i : Item),
    i ∈ items → groupKey i ∈ ks →
    winnerOf (groupOf items (groupKey i)) = none →
    projM i ∈ (resolveKeys items ks).2 := by
  intro items ks
  induction ks with
  | nil => intro i _ hk; cases hk
  | cons k ks ih =>
    intro i hi hk hw
    rw [resolveKeys]
    simp only [List.mem_append]
    rcases List.mem_cons.mp hk with h1 | h1
    · left
      apply resolveGroup_nowinner_bad _ i
      · rw [← h1]
        exact mem_groupOf items i hi
      · rw [← h1]
        exact hw
    · right
      exact ih i hi h1 hw

lemma resolveKeys_good_src : ∀ (items : List Item) (ks : List (List Char)) (p : Proj),
    p ∈ (resolveKeys items ks).1 →
    ∃ k, k ∈ ks ∧ ∃ w, winnerOf (groupOf items k) = some w ∧ p = projM w := by
  intro items ks
  induction ks with
  | nil => intro p hp; simp [resolveKeys] at hp
  | cons k ks ih =>
    intro p hp
    rw [resolveKeys] at hp
    rcases List.mem_append.mp hp with h1 | h1
    · obtain ⟨w, hw, hpw⟩ := resolveGroup_good_src (groupOf items k) p h1
      exact ⟨k, List.mem_cons_self _ _, w, hw, hpw⟩
    · obtain ⟨k', hk', w, hw, hpw⟩ := ih p h1
      exact ⟨k', List.mem_cons_of_mem _ hk', w, hw, hpw⟩

/-- Total size of the groups selected by a key list. -/
def countKeyed (items : List Item) (ks : List (List Char)) : Nat :=
  (ks.map fun k => (groupOf items k).length).sum

lemma resolveKeys_len_le : ∀ (items : List Item) (ks : List (List Char)),
    (resolveKeys items ks).1.length + (resolveKeys items ks).2.length ≤
      countKeyed items ks := by
  intro items ks
  induction ks with
  | nil => simp [resolveKeys, countKeyed]
  | cons k ks ih =>
    rw [resolveKeys]
    have h1 := resolveGroup_len (groupOf items k)
    have h2 : countKeyed items (k :: ks) =
        (groupOf items k).length + countKeyed items ks := by
      simp [countKeyed]
    simp only [List.length_append]
    omega

lemma indicator_sum_zero : ∀ (x : List Char) (ks : List (List Char)), x ∉ ks →
    ((ks.map fun k => if x = k then 1 else 0).sum : Nat) = 0 := by
  intro x ks
  induction ks with
  | nil => intro; rfl
  | cons k ks ih =>
    intro hnm
    have hne : x ≠ k := fun h => hnm (h ▸ List.mem_cons_self _ _)
    have hnm' : x ∉ ks := fun h => hnm (List.mem_cons_of_mem _ h)
    simp [hne, ih hnm']

lemma indicator_sum_le_one : ∀ (x : List Char) (ks : List (List Char)), ks.Nodup →
    ((ks.map fun k => if x = k then 1 else 0).sum : Nat) ≤ 1 := by
  intro x ks
  induction ks with
  | nil => intro; simp
  | cons k ks ih =>
    intro hnd
    rw [List.map_cons, List.sum_cons]
    have hnd' := List.Nodup.of_cons hnd
    by_cases hx : x = k
    · have hknm : k ∉ ks := (List.nodup_cons.mp hnd).1
      rw [if_pos hx, indicator_sum_zero x ks (hx ▸ hknm)]
    · rw [if_neg hx]
      simpa using ih hnd'

lemma countKeyed_cons : ∀ (i : Item) (items : List Item) (ks : List (List Char)),
    countKeyed (i :: items) ks =
      (ks.map fun k => if groupKey i = k then 1 else 0).sum + countKeyed items ks := by
  intro i items ks
  induction ks with
  | nil => rfl
  | cons k ks ih =>
    simp only [countKeyed, List.map_cons, List.sum_cons] at *
    have hlen : (groupOf (i :: items) k).length =
        (if groupKey i = k then 1 else 0) + (groupOf items k).length := by
      by_cases h : groupKey i = k <;> simp [groupOf, List.filter_cons, h] <;> omega
    omega

lemma countKeyed_le : ∀ (items : List Item) (ks : List (List Char)), ks.Nodup →
    countKeyed items ks ≤ items.length := by
  intro items
  induction items with
  | nil =>
    intro ks _
    have : ∀ k, (groupOf ([] : List Item) k).length = 0 := by intro k; rfl
    simp [countKeyed, this]
  | cons i items ih =>
    intro ks hnd
    rw [countKeyed_cons]
    have h1 := indicator_sum_le_one (groupKey i) ks hnd
    have h2 := ih ks hnd
    simp only [List.length_cons]
    omega

/-- A regular record that qualifies as a candidate (20 sales, both books
non-empty). -/
def c1a : Item :=
  { name := "Alpha".toList, wear := "FN".toList, sales := some 20,
    offer_prices_list := some [1], target_price_list := some [2] }

/-- A second qualifying regular record of the same base identity. -/
def c1b : Item :=
  { name := "Alpha".toList, wear := "MW".toList, sales := some 20,
    offer_prices_list := some [1], target_price_list := some [2] }

/-- A self-owned record with no other data (not a candidate). -/
def c1m : Item :=
  { name := "Gamma MINE".toList, wear := "FN".toList }

/-- Counterexample to C1 as stated: in a group with two qualifying regular
records, the first becomes the winner and the second is emitted to
neither partition — `bad` stays empty, so the outputs cover 1 of the 2
input records rather than each record appearing in exactly one
partition. -/
theorem C1_counterexample :
    main_resolve [c1a, c1b] = ([projM c1a], [])
    ∧ (main_resolve [c1a, c1b]).1.length + (main_resolve [c1a, c1b]).2.length ≠
        ([c1a, c1b] : List Item).length := by
  decide

/-- C1 (amended): the resolver selects at most one winner per group — the
first candidate of the regular subset in input order, emitted to good as a
`{name, wear}` projection; a record of a winnerless group is always
emitted to bad, as is every self-owned record; and each input record
appears in at most one (not exactly one) of the two outputs: a regular
non-winner in a group with a winner is emitted to neither. -/
theorem C1_grouping_resolution (items : List Item) :
    (main_resolve items).1.length ≤ (keysOf items).length
    ∧ (main_resolve items).1.length + (main_resolve items).2.length ≤ items.length
    ∧ (∀ i, i ∈ items → isMine i = true → projM i ∈ (main_resolve items).2)
    ∧ (∀ i, i ∈ items → winnerOf (groupOf items (groupKey i)) = none →
        projM i ∈ (main_resolve items).2)
    ∧ (∀ p, p ∈ (main_resolve items).1 →
        ∃ w, w ∈ items ∧ isMine w = false ∧ isCandidate w = true
          ∧ winnerOf (groupOf items (groupKey w)) = some w ∧ p = projM w) := by
  refine ⟨resolveKeys_good_len items (keysOf items), ?_, ?_, ?_, ?_⟩
  · exact le_trans (resolveKeys_len_le items (keysOf items))
      (countKeyed_le items (keysOf items) (nodup_keysOf items))
  · intro i hi hm
    exact resolveKeys_mine_bad items (keysOf items) i hi
      (groupKey_mem_keysOf items i hi) hm
  · intro i hi hw
    exact resolveKeys_nowinner_bad items (keysOf items) i hi
      (groupKey_mem_keysOf items i hi) hw
  · intro p hp
    obtain ⟨k, _, w, hw, hpw⟩ := resolveKeys_good_src items (keysOf items) p hp
    obtain ⟨hwmem, hwmine, hwcand⟩ := winnerOf_spec (groupOf items k) w hw
    obtain ⟨hkey, hitems⟩ := groupOf_key items k w hwmem
    refine ⟨w, hitems, hwmine, hwcand, ?_, hpw⟩
    rw [hkey]
    exact hw

/-- Witness for the amended C1 at concrete inputs: the lone self-owned
record of a winnerless group lands in bad, and the two-record group stays
within the at-most-one bounds. -/
theorem C1_grouping_resolution_witness :
    projM c1m ∈ (main_resolve [c1m]).2
    ∧ (main_resolve [c1a, c1b]).1.length + (main_resolve [c1a, c1b]).2.length ≤ 2 :=
  ⟨(C1_grouping_resolution [c1m]).2.2.1 c1m (by decide) (by decide),
   (C1_grouping_resolution [c1a, c1b]).2.1⟩

/-- The qualifying regular record of the C9 example group. -/
def c9reg : Item :=
  { name := "Omega".toList, wear := "FN".toList, sales := some 20,
    offer_prices_list := some [1], target_price_list := some [2] }

/-- First self-owned variant; its fields would qualify it as a candidate. -/
def c9m1 : Item :=
  { name := "Omega MINE".toList, wear := "FN".toList, sales := some 20,
    offer_prices_list := some [1], target_price_list := some [2] }

/-- Second self-owned variant, also individually qualifying. -/
def c9m2 : Item :=
  { name := "Omega MINE".toList, wear := "MW".toList, sales := some 20,
    offer_prices_list := some [1], target_price_list := some [2] }

/-- C9: no record whose name carries the `" MINE"` suffix is ever emitted
to the good output; every self-owned record of the batch is emitted to the
bad output (whether or not its group has a winner, and regardless of its
own candidacy); and the example group — one qualifying regular record plus
two individually-qualifying self-owned variants — yields exactly 1 good
entry and 2 bad entries. -/
theorem C9_self_owned_never_good :
    (∀ (items : List Item) (p : Proj), p ∈ (main_resolve items).1 →
        mineSuffix.isSuffixOf p.name = false)
    ∧ (∀ (items : List Item) (i : Item), i ∈ items → isMine i = true →
        projM i ∈ (main_resolve items).2)
    ∧ main_resolve [c9reg, c9m1, c9m2] = ([projM c9reg], [projM c9m1, projM c9m2]) := by
  refine ⟨?_, ?_, by decide⟩
  · intro items p hp
    obtain ⟨k, _, w, hw, hpw⟩ := resolveKeys_good_src items (keysOf items) p hp
    obtain ⟨_, hwmine, _⟩ := winnerOf_spec (groupOf items k) w hw
    rw [hpw]
    exact hwmine
  · intro items i hi hm
    exact resolveKeys_mine_bad items (keysOf items) i hi
      (groupKey_mem_keysOf items i hi) hm

/-- Witness for C9 at concrete inputs: the winner projection of the
example group carries no owned marker, and both self-owned variants land
in bad. -/
theorem C9_self_owned_never_good_witness :
    mineSuffix.isSuffixOf (projM c9reg).name = false
    ∧ projM c9m1 ∈ (main_resolve [c9reg, c9m1, c9m2]).2 :=
  ⟨C9_self_owned_never_good.1 [c9reg, c9m1, c9m2] (projM c9reg) (by decide),
   C9_self_owned_never_good.2.1 [c9reg, c9m1, c9m2] c9m1 (by decide) (by decide)⟩
